import Mathlib

/-!
Shallow embedding of the watch/detect/respond core of the ChatBot service
(`internal` package, file holding `ReadMessages` / `askChatGPT` /
`updateConversationHistory` / `isReplyToBot` / `initializeSeenMessages`).

Go strings are modelled as `List Char`; fallible render-surface reads as
`Option` (with `none` for an errored call) and element queries as a
three-valued `Query` (query error, element absent, element found).  The
completion HTTP exchange is an oracle producing a `CompletionOutcome`;
its parsed JSON body is a `JVal` tree, so that the unchecked Go type
assertion on `choices[0]` can be modelled faithfully (as a crash case).
-/

namespace ChatBot

/-- Text as a list of characters (the model of a Go string). -/
abbrev Str := List Char

/-- Whitespace test used by `strings.Fields` / `strings.TrimSpace`
(modelled for the ASCII whitespace that can occur in the program's data). -/
def isSpace (c : Char) : Bool := c.isWhitespace

/-- Model of Go `strings.TrimSpace`: drop whitespace from both ends. -/
def trimSpace (s : Str) : Str :=
  ((s.dropWhile isSpace).reverse.dropWhile isSpace).reverse

/-- Model of Go `strings.TrimPrefix pre`: drop `pre` when it is a prefix,
else return the string unchanged. -/
def trimPrefixS (pre s : Str) : Str :=
  if pre.isPrefixOf s then s.drop pre.length else s

/-- Model of Go `strings.EqualFold` (simple per-character case folding,
adequate for the ASCII identities the program compares). -/
def equalFold (a b : Str) : Bool :=
  a.map Char.toLower == b.map Char.toLower

/-- Scan step of the `strings.ReplaceAll` model, structurally recursive on
a fuel that bounds the remaining scan length (each step consumes at least
one character, so fuel `s.length` always suffices). -/
def replaceAllFuel (pat rep : Str) : Nat → Str → Str
  | _, [] => []
  | 0, s => s
  | fuel + 1, c :: cs =>
    if pat ≠ [] ∧ pat.isPrefixOf (c :: cs) then
      rep ++ replaceAllFuel pat rep fuel ((c :: cs).drop pat.length)
    else
      c :: replaceAllFuel pat rep fuel cs

/-- Model of Go `strings.ReplaceAll s pat rep`: replace the leftmost,
non-overlapping occurrences of `pat` by `rep`.  For `pat = []` Go's
`ReplaceAll` with `rep = ""` (the only empty-pattern use reachable in the
source) returns `s` unchanged, as this does. -/
def replaceAll (pat rep s : Str) : Str :=
  replaceAllFuel pat rep s.length s

/-- Split at every whitespace character, keeping (possibly empty) chunks;
the auxiliary step of the `strings.Fields` model. -/
def splitWs : Str → List Str
  | [] => [[]]
  | c :: cs =>
    if isSpace c then [] :: splitWs cs
    else
      match splitWs cs with
      | [] => [[c]]
      | w :: ws => (c :: w) :: ws

/-- Model of Go `strings.Fields`: the maximal whitespace-free runs. -/
def fields (s : Str) : List Str :=
  (splitWs s).filter (fun w => !w.isEmpty)

/-- Model of Go `strings.Join ws " "`. -/
def joinSpace : List Str → Str
  | [] => []
  | [w] => w
  | w :: ws => w ++ (' ' :: joinSpace ws)

/-- A `{role, content}` map sent to / stored for the completion service. -/
structure Turn where
  role : Str
  content : Str
deriving DecidableEq, Repr

def roleSystem : Str := "system".data
def roleUser : Str := "user".data
def roleAssistant : Str := "assistant".data
def atS : Str := "@".data
def commaS : Str := ",".data
def dotS : Str := ".".data
def nlS : Str := "\n".data

/-- The fixed system instruction of `askChatGPT` (source lines 351-357). -/
def systemPrompt : Str :=
  "Отвечай пользователю от первого лица единственного числа.\nТвои ответы всегда на русском языке.\nТы не используешь запятые в своих предложениях. Вместо точек начинай новую строку.\nНе задавай вопросов вроде \"Чем я могу помочь?\" или подобных.\nТвои ответы должны быть краткими, не более 50 слов, и создавать впечатление, что говорит реальный человек.\nВсе символы, кроме первого в строке, должны быть в нижнем регистре.\nТы можешь использовать только вопросительные и восклицательные знаки; не используй другие символы вроде дефисов.".data

/-- The comma-stripping / period-to-linebreak conversion applied both to the
outgoing user message (source lines 348-349) and, after a `TrimSpace`, to the
reply (lines 414-416). -/
def convertPunct (s : Str) : Str :=
  replaceAll dotS nlS (replaceAll commaS [] s)

/-- The trimmed, comma-stripped, period-converted form of a raw reply
(source lines 414-416). -/
def shapedContent (content : Str) : Str :=
  convertPunct (trimSpace content)

/-- Reply post-processing of `askChatGPT` (source lines 414-420): trim,
strip commas, turn periods into line breaks, cap at 50 whitespace-separated
words by truncation. -/
def normalizeReply (content : Str) : Str :=
  let c := shapedContent content
  let words := fields c
  if 50 < words.length then joinSpace (words.take 50) else c

/-- Source `updateConversationHistory` (lines 436-443): append the user and
assistant turns, then keep only the last 10 turns. -/
def updateConversationHistory (hist : List Turn) (userMessage assistantMessage : Turn) :
    List Turn :=
  let h := (hist ++ [userMessage]) ++ [assistantMessage]
  if 10 < h.length then h.drop (h.length - 10) else h

/-- Committing a whole sequence of user/assistant exchange pairs, starting
from the empty history `New` installs (source line 63). -/
def commitAll (ps : List (Turn × Turn)) : List Turn :=
  ps.foldl (fun h p => updateConversationHistory h p.1 p.2) []

/-- Result of a render-surface element query: the call errored, the element
was absent (`nil`), or the element was found. -/
inductive Query (α : Type) where
  | qerr : Query α
  | qnone : Query α
  | qsome : α → Query α
deriving DecidableEq, Repr

/-- One feed entry as the loop body of `ReadMessages` observes it.  Each
field is the outcome of the corresponding surface read: `idAttr` the
`data-list-item-id` attribute (`none` = errored read), `usernameEl` the
author element and its inner text, `replyCtx` the reply-context element and,
inside it, the referenced username element and its inner text, `mentionEls`
the mention elements' inner texts (the outer `none` models an errored
`QuerySelectorAll`), `contentEl` the content element and its inner text. -/
structure Message where
  idAttr : Option Str
  usernameEl : Query (Option Str)
  replyCtx : Query (Query (Option Str))
  mentionEls : Option (List (Option Str))
  contentEl : Query (Option Str)
deriving DecidableEq, Repr

/-- Source `isReplyToBot` (lines 299-324): errors propagate, a missing
reply context or username element yields `false`, otherwise the referenced
username is trimmed, `@`-stripped and compared case-insensitively. -/
def isReplyToBot (botUsername : Str) (m : Message) : Option Bool :=
  match m.replyCtx with
  | .qerr => none
  | .qnone => some false
  | .qsome .qerr => none
  | .qsome .qnone => some false
  | .qsome (.qsome none) => none
  | .qsome (.qsome (some utxt)) =>
    some (equalFold (trimPrefixS atS (trimSpace utxt)) botUsername)

/-- The mention loop of `ReadMessages` (lines 238-250): a mention whose
text read errors is skipped; the first trimmed, `@`-stripped,
case-insensitive match of the bot identity stops the loop with `true`. -/
def checkMentioned (botUsername : Str) : List (Option Str) → Bool
  | [] => false
  | none :: rest => checkMentioned botUsername rest
  | some t :: rest =>
    if equalFold (trimPrefixS atS (trimSpace t)) botUsername then true
    else checkMentioned botUsername rest

/-- The clean-content loop (lines 270-274): each mention's literal text is
removed from the content; an errored text read contributes the zero-value
empty string, and `ReplaceAll` with an empty pattern and empty replacement
leaves the text unchanged. -/
def stripMentions (mels : List (Option Str)) (content : Str) : Str :=
  mels.foldl
    (fun acc mel =>
      match mel with
      | none => replaceAll [] [] acc
      | some t => replaceAll t [] acc)
    content

/-- Parsed JSON value of the completion response body, at the granularity
the extraction code inspects: strings, arrays, objects, and everything else
(numbers, booleans, null) collapsed to `other`. -/
inductive JVal where
  | str : Str → JVal
  | arr : List JVal → JVal
  | obj : List (Str × JVal) → JVal
  | other : JVal

/-- Go map indexing on a decoded JSON object. -/
def lookupJ (flds : List (Str × JVal)) (k : Str) : Option JVal :=
  (flds.find? (fun p => p.1 = k)).map (fun p => p.2)

/-- Outcome of the HTTP exchange of `askChatGPT` (lines 389-408), observed
through the oracle modelling the completion service: the transport failed
(`client.Do`), the body was unreadable (`io.ReadAll`), or a response arrived
with a status-OK flag and — when the body is well-formed JSON — its decoded
top-level object. -/
inductive CompletionOutcome where
  | transportErr : CompletionOutcome
  | readErr : CompletionOutcome
  | httpResp : Bool → Option (List (Str × JVal)) → CompletionOutcome

def keyChoices : Str := "choices".data
def keyMessage : Str := "message".data
def keyContent : Str := "content".data

/-- Result of the reply-extraction code (lines 410-433): `crash` models the
panic of the unchecked type assertion `choices[0].(map[string]interface{})`
on line 411, `err` the `invalid response format` error, `okReply` success. -/
inductive AskResult where
  | crash : AskResult
  | err : AskResult
  | okReply : Str → AskResult
deriving DecidableEq, Repr

/-- Extraction of `choices[0].message.content` from the decoded body
(lines 410-431), with the unchecked assertion on `choices[0]` crashing when
it is not an object. -/
def extractContent (flds : List (Str × JVal)) : AskResult :=
  match lookupJ flds keyChoices with
  | some (.arr (c0 :: _)) =>
    match c0 with
    | .obj fc =>
      match lookupJ fc keyMessage with
      | some (.obj mm) =>
        match lookupJ mm keyContent with
        | some (.str content) => .okReply content
        | _ => .err
      | _ => .err
    | _ => .crash
  | _ => .err

/-- The messages array `askChatGPT` builds (lines 358-369): the system
instruction, the stored history, the new user turn. -/
def buildMessages (hist : List Turn) (message : Str) : List Turn :=
  ⟨roleSystem, systemPrompt⟩ :: (hist ++ [⟨roleUser, message⟩])

/-- What one invocation of `askChatGPT` yields: its result, the
conversation history afterwards, and the messages array it sent. -/
structure AskOutcome where
  result : AskResult
  hist : List Turn
  sent : List Turn
deriving DecidableEq, Repr

/-- Source `askChatGPT` (lines 347-434): the incoming message is
comma-stripped and period-converted, the messages array is built and sent;
every failure of the exchange or of extraction returns an error with the
history untouched; on success the reply is normalized and both turns are
committed to the history together. -/
def askChatGPT (oracle : List Turn → CompletionOutcome) (hist : List Turn)
    (message0 : Str) : AskOutcome :=
  let message := convertPunct message0
  let messages := buildMessages hist message
  match oracle messages with
  | .transportErr => ⟨.err, hist, messages⟩
  | .readErr => ⟨.err, hist, messages⟩
  | .httpResp false _ => ⟨.err, hist, messages⟩
  | .httpResp true none => ⟨.err, hist, messages⟩
  | .httpResp true (some flds) =>
    match extractContent flds with
    | .crash => ⟨.crash, hist, messages⟩
    | .err => ⟨.err, hist, messages⟩
    | .okReply raw =>
      let content := normalizeReply raw
      ⟨.okReply content,
        updateConversationHistory hist ⟨roleUser, message⟩ ⟨roleAssistant, content⟩,
        messages⟩

/-- The mutable session state `ReadMessages` threads: the seen-id store and
the conversation history. -/
structure BotState where
  seenMessages : List Str
  conversationHistory : List Turn
deriving DecidableEq, Repr

/-- Recording an id in the seen store (line 202) before any further
attribute of the entry is read. -/
def markSeen (st : BotState) (id : Str) : BotState :=
  ⟨id :: st.seenMessages, st.conversationHistory⟩

/-- The per-entry body of the `ReadMessages` polling loop (lines 190-289).
Returns `none` when `askChatGPT` panics (the process dies), otherwise the
new state, the list of completion calls issued (each the messages array
sent) and the list of responses handed to `typeInChat`. -/
def processMessage (botUsername : Str) (oracle : List Turn → CompletionOutcome)
    (st : BotState) (m : Message) :
    Option (BotState × List (List Turn) × List Str) :=
  match m.idAttr with
  | none => some (st, [], [])
  | some id =>
    if id = [] then some (st, [], [])
    else if st.seenMessages.contains id then some (st, [], [])
    else
      match m.usernameEl with
      | .qerr => some (markSeen st id, [], [])
      | .qnone => some (markSeen st id, [], [])
      | .qsome none => some (markSeen st id, [], [])
      | .qsome (some utxt) =>
        if equalFold (trimPrefixS atS (trimSpace utxt)) botUsername then
          some (markSeen st id, [], [])
        else
          match isReplyToBot botUsername m with
          | none => some (markSeen st id, [], [])
          | some isReply =>
            match m.mentionEls with
            | none => some (markSeen st id, [], [])
            | some mels =>
              if checkMentioned botUsername mels || isReply then
                match m.contentEl with
                | .qerr => some (markSeen st id, [], [])
                | .qnone => some (markSeen st id, [], [])
                | .qsome none => some (markSeen st id, [], [])
                | .qsome (some ctext) =>
                  match askChatGPT oracle st.conversationHistory
                      (trimSpace (stripMentions mels (trimSpace ctext))) with
                  | ⟨.crash, _, _⟩ => none
                  | ⟨.err, h2, sent⟩ =>
                    some (⟨(markSeen st id).seenMessages, h2⟩, [sent], [])
                  | ⟨.okReply reply, h2, sent⟩ =>
                    some (⟨(markSeen st id).seenMessages, h2⟩, [sent], [reply])
              else some (markSeen st id, [], [])

/-- One polling tick over the current entry snapshot, accumulating calls and
injections; a panic aborts the run. -/
def processTick (botUsername : Str) (oracle : List Turn → CompletionOutcome)
    (st : BotState) : List Message →
    Option (BotState × List (List Turn) × List Str)
  | [] => some (st, [], [])
  | m :: ms =>
    match processMessage botUsername oracle st m with
    | none => none
    | some (st1, cs, inj) =>
      match processTick botUsername oracle st1 ms with
      | none => none
      | some (st2, cs2, inj2) => some (st2, cs ++ cs2, inj ++ inj2)

/-- One step of the initialization pass (lines 332-342): an errored or
empty id attribute is skipped, any other id is recorded. -/
def initStep (acc : BotState) (m : Message) : BotState :=
  match m.idAttr with
  | none => acc
  | some id =>
    if id = [] then acc
    else ⟨id :: acc.seenMessages, acc.conversationHistory⟩

/-- Source `initializeSeenMessages` (lines 326-345): record every visible
entry id with a non-empty, successfully read id attribute; nothing else of
the state is touched and no classification happens. -/
def initializeSeenMessages (st : BotState) (msgs : List Message) : BotState :=
  msgs.foldl initStep st

/-- Flatten exchange pairs into the turn list they store, user before
assistant. -/
def pairsFlat : List (Turn × Turn) → List Turn
  | [] => []
  | p :: ps => p.1 :: p.2 :: pairsFlat ps

/-- The last `n` elements of a list. -/
def lastN (n : Nat) (l : List α) : List α := l.drop (l.length - n)

/-- Concrete exchange pairs used to instantiate the history bound. -/
def pairsC2 (n : Nat) : List (Turn × Turn) :=
  (List.range n).map
    (fun i => (⟨roleUser, [Char.ofNat (65 + i)]⟩, ⟨roleAssistant, [Char.ofNat (97 + i)]⟩))

/-- The per-entry failure conditions of the attribute reads: the username
element query errors, is absent or its text read errors; the mention
element query errors; or the content element query errors, is absent or its
text read errors. -/
def attrFails (m : Message) : Prop :=
  m.usernameEl = .qerr ∨ m.usernameEl = .qnone ∨ m.usernameEl = .qsome none ∨
    m.mentionEls = none ∨
    m.contentEl = .qerr ∨ m.contentEl = .qnone ∨ m.contentEl = .qsome none

/-! ### Concrete scenario data -/

/-- The bot identity of the spec scenarios. -/
def botName : Str := "Bot".data

def idM1 : Str := "m1".data
def aliceName : Str := "alice".data
def contentM1 : Str := "@Bot hello.".data

/-- The mention-trigger scenario entry: id `m1`, a non-bot author, no reply
context, one mention reading `Bot`, content `@Bot hello.`. -/
def mEntryM1 : Message :=
  ⟨some idM1, .qsome (some aliceName), .qnone, some [some botName],
    .qsome (some contentM1)⟩

def strHello : Str := "hello".data
def strAtHelloNl : Str := "@ hello\n".data
def strOk : Str := "ok".data

/-- The messages array the scenario's single completion call sends. -/
def sentM1 : List Turn := buildMessages [] strAtHelloNl

/-- A well-formed completion response body whose single choice carries
`raw` as message content. -/
def goodChoices (raw : Str) : List (Str × JVal) :=
  [(keyChoices, .arr [.obj [(keyMessage, .obj [(keyContent, .str raw)])]])]

/-- An always-successful completion oracle replying `raw`. -/
def oracleOfReply (raw : Str) : List Turn → CompletionOutcome :=
  fun _ => .httpResp true (some (goodChoices raw))

/-- A status-200 response whose `choices[0]` is a JSON number: well-formed
JSON that lacks `choices[0].message.content`. -/
def oracleNonObjectChoice : List Turn → CompletionOutcome :=
  fun _ => .httpResp true (some [(keyChoices, .arr [JVal.other])])

/-- An oracle whose transport always fails. -/
def oracleTransportErr : List Turn → CompletionOutcome :=
  fun _ => .transportErr

def atBotName : Str := "@Bot".data
def strAtHelloDot : Str := "@ hello.".data

/-- An entry authored by the bot itself (author text `@Bot`), with a
matching mention and a reply context referencing the bot. -/
def mSelf : Message :=
  ⟨some idM1, .qsome (some atBotName), .qsome (.qsome (some botName)),
    some [some botName], .qsome (some contentM1)⟩

/-- An entry whose username element query errors. -/
def mBrokenUser : Message :=
  ⟨some idM1, .qerr, .qnone, some [some botName], .qsome (some contentM1)⟩

/-- An entry whose reply-context query errors while its mentions match the
bot. -/
def mReplyErr : Message :=
  ⟨some idM1, .qsome (some aliceName), .qerr, some [some botName],
    .qsome (some contentM1)⟩

def fooName : Str := "Foo".data
def atFooName : Str := "@Foo".data
def fooLower : Str := "foo".data
def fooUpper : Str := "FOO".data

def idA : Str := "a".data
def idB : Str := "b".data
def idC : Str := "c".data

/-- A pre-existing feed entry with the given id, mentioning the bot. -/
def preEntry (id : Str) : Message :=
  ⟨some id, .qsome (some aliceName), .qnone, some [some botName],
    .qsome (some contentM1)⟩

/-- A feed of three pre-existing entries at session start. -/
def feed3 : List Message := [preEntry idA, preEntry idB, preEntry idC]

/-! ### Lemmas about the `strings.Fields` model -/

theorem splitWs_ne_nil : ∀ s : Str, splitWs s ≠ []
  | [] => by simp [splitWs]
  | c :: cs => by
    simp only [splitWs]
    cases hsp : isSpace c with
    | true => simp
    | false =>
      simp only [Bool.false_eq_true, if_false]
      cases splitWs cs <;> simp

theorem splitWs_nonspace : ∀ s : Str, ∀ w ∈ splitWs s, ∀ c ∈ w, isSpace c = false
  | [] => by simp [splitWs]
  | c :: cs => by
    intro w hw x hx
    have ih := splitWs_nonspace cs
    simp only [splitWs] at hw
    cases hsp : isSpace c with
    | true =>
      rw [hsp] at hw
      simp only [if_true, List.mem_cons] at hw
      rcases hw with hw | hw
      · subst hw; simp at hx
      · exact ih w hw x hx
    | false =>
      rw [hsp] at hw
      simp only [Bool.false_eq_true, if_false] at hw
      cases hcs : splitWs cs with
      | nil => exact absurd hcs (splitWs_ne_nil cs)
      | cons w0 ws0 =>
        rw [hcs] at hw
        simp only [List.mem_cons] at hw
        rcases hw with hw | hw
        · subst hw
          rcases List.mem_cons.mp hx with hx | hx
          · subst hx; exact hsp
          · exact ih w0 (by rw [hcs]; exact List.mem_cons_self w0 ws0) x hx
        · exact ih w (by rw [hcs]; exact List.mem_cons_of_mem w0 hw) x hx

theorem splitWs_append_word : ∀ (w s : Str) (h : Str) (t : List Str), splitWs s = h :: t →
    (∀ c ∈ w, isSpace c = false) → splitWs (w ++ s) = (w ++ h) :: t
  | [], s, h, t, hs, _ => by simpa using hs
  | c :: w', s, h, t, hs, hw => by
    have hc : isSpace c = false := hw c (List.mem_cons_self c w')
    have ih := splitWs_append_word w' s h t hs (fun x hx => hw x (List.mem_cons_of_mem c hx))
    simp only [List.cons_append, splitWs, hc, Bool.false_eq_true, if_false,
      List.append_eq, ih]

theorem fields_joinSpace : ∀ ws : List Str,
    (∀ w ∈ ws, w ≠ [] ∧ ∀ c ∈ w, isSpace c = false) → fields (joinSpace ws) = ws
  | [] => by intro _; simp [joinSpace, fields, splitWs]
  | [w] => by
    intro h
    obtain ⟨hne, hns⟩ := h w (List.mem_cons_self w [])
    have hw : splitWs (w ++ []) = (w ++ []) :: [] :=
      splitWs_append_word w [] [] [] (by simp [splitWs]) hns
    simp only [List.append_nil] at hw
    show fields w = [w]
    unfold fields
    rw [hw, List.filter_cons]
    simp [List.isEmpty_eq_false.mpr hne]
  | w :: w' :: ws => by
    intro h
    obtain ⟨hne, hns⟩ := h w (List.mem_cons_self w (w' :: ws))
    have ih := fields_joinSpace (w' :: ws) (fun x hx => h x (List.mem_cons_of_mem w hx))
    have hsp : splitWs (' ' :: joinSpace (w' :: ws)) = [] :: splitWs (joinSpace (w' :: ws)) := by
      simp only [splitWs, show isSpace ' ' = true from by decide, if_true]
    have hw : splitWs (w ++ ' ' :: joinSpace (w' :: ws)) =
        (w ++ []) :: splitWs (joinSpace (w' :: ws)) :=
      splitWs_append_word w (' ' :: joinSpace (w' :: ws)) []
        (splitWs (joinSpace (w' :: ws))) hsp hns
    simp only [List.append_nil] at hw
    show fields (w ++ ' ' :: joinSpace (w' :: ws)) = w :: w' :: ws
    unfold fields at ih ⊢
    rw [hw, List.filter_cons]
    simp only [List.isEmpty_eq_false.mpr hne, Bool.not_false, if_true, ih]

theorem fields_spec (s : Str) : ∀ w ∈ fields s, w ≠ [] ∧ ∀ c ∈ w, isSpace c = false := by
  intro w hw
  unfold fields at hw
  have hmem := List.mem_of_mem_filter hw
  have hkeep := List.of_mem_filter hw
  refine ⟨?_, splitWs_nonspace s w hmem⟩
  simpa [List.isEmpty_eq_false] using hkeep

/-- C1: whenever the trimmed, comma-stripped, period-converted form of a
reply has more than 50 whitespace-separated words, `normalizeReply` (the
shaping in `askChatGPT`, lines 414-420) yields exactly 50 words, and they
are exactly the first 50 words of that converted form. -/
theorem normalizeReply_truncates (content : Str)
    (h : 50 < (fields (shapedContent content)).length) :
    fields (normalizeReply content) = (fields (shapedContent content)).take 50 ∧
      (fields (normalizeReply content)).length = 50 := by
  have hwords : ∀ w ∈ (fields (shapedContent content)).take 50,
      w ≠ [] ∧ ∀ c ∈ w, isSpace c = false :=
    fun w hw => fields_spec (shapedContent content) w (List.take_subset 50 _ hw)
  have hnorm : normalizeReply content =
      joinSpace ((fields (shapedContent content)).take 50) := by
    unfold normalizeReply
    simp only [h, if_true]
  rw [hnorm, fields_joinSpace _ hwords]
  refine ⟨rfl, ?_⟩
  rw [List.length_take]
  omega

/-- C1 witness: a concrete 51-word reply is truncated to its first 50
words. -/
theorem normalizeReply_truncates_witness :
    fields (normalizeReply (joinSpace (List.replicate 51 ['a']))) =
        (fields (shapedContent (joinSpace (List.replicate 51 ['a'])))).take 50 ∧
      (fields (normalizeReply (joinSpace (List.replicate 51 ['a'])))).length = 50 :=
  normalizeReply_truncates (joinSpace (List.replicate 51 ['a'])) (by decide)

/-! ### Lemmas about the conversation history bound -/

theorem pairsFlat_append (l l' : List (Turn × Turn)) :
    pairsFlat (l ++ l') = pairsFlat l ++ pairsFlat l' := by
  induction l with
  | nil => simp [pairsFlat]
  | cons p ps ih => simp [pairsFlat, ih]

theorem length_pairsFlat (l : List (Turn × Turn)) :
    (pairsFlat l).length = 2 * l.length := by
  induction l with
  | nil => simp [pairsFlat]
  | cons p ps ih => simp [pairsFlat, ih]; omega

theorem lastN_of_le {l : List α} {n : Nat} (h : l.length ≤ n) : lastN n l = l := by
  unfold lastN
  have : l.length - n = 0 := by omega
  simp [this]

theorem length_lastN (n : Nat) (l : List α) :
    (lastN n l).length = min n l.length := by
  unfold lastN
  rw [List.length_drop]
  omega

theorem commit_step (l : List (Turn × Turn)) (hl : l.length ≤ 5) (u a : Turn) :
    updateConversationHistory (pairsFlat l) u a = pairsFlat (lastN 5 (l ++ [(u, a)])) := by
  have hflat : (pairsFlat l ++ [u]) ++ [a] = pairsFlat (l ++ [(u, a)]) := by
    rw [pairsFlat_append]
    simp [pairsFlat]
  have hlen : (pairsFlat (l ++ [(u, a)])).length = 2 * l.length + 2 := by
    rw [length_pairsFlat]
    simp only [List.length_append, List.length_cons, List.length_nil]
    omega
  unfold updateConversationHistory
  rw [hflat]
  rcases Nat.lt_or_ge l.length 5 with h4 | h5
  · have hno : ¬ 10 < (pairsFlat (l ++ [(u, a)])).length := by omega
    rw [if_neg hno, lastN_of_le (by simp; omega)]
  · have hex : l.length = 5 := by omega
    cases l with
    | nil => simp at hex
    | cons q l₂ =>
      have hl₂ : l₂.length = 4 := by simp at hex; omega
      have hyes : 10 < (pairsFlat ((q :: l₂) ++ [(u, a)])).length := by
        rw [hlen]; omega
      rw [if_pos hyes, hlen]
      have hdrop2 : 2 * (q :: l₂).length + 2 - 10 = 2 := by simp; omega
      rw [hdrop2]
      have hcons : pairsFlat ((q :: l₂) ++ [(u, a)]) =
          q.1 :: q.2 :: pairsFlat (l₂ ++ [(u, a)]) := by
        simp [pairsFlat]
      rw [hcons]
      show pairsFlat (l₂ ++ [(u, a)]) = pairsFlat (lastN 5 ((q :: l₂) ++ [(u, a)]))
      have : lastN 5 ((q :: l₂) ++ [(u, a)]) = l₂ ++ [(u, a)] := by
        unfold lastN
        have h1 : ((q :: l₂) ++ [(u, a)]).length - 5 = 1 := by simp; omega
        rw [h1]
        simp
      rw [this]

theorem lastN_lastN_append (n : Nat) (a b : List α) :
    lastN n (lastN n a ++ b) = lastN n (a ++ b) := by
  rcases Nat.lt_or_ge a.length n with hlt | hge
  · rw [lastN_of_le (le_of_lt hlt)]
  · unfold lastN
    have hlen : (a.drop (a.length - n)).length = n := by
      rw [List.length_drop]; omega
    have hsplit : a.drop (a.length - n) ++ b = (a ++ b).drop (a.length - n) :=
      (List.drop_append_of_le_length (by omega)).symm
    simp only [List.length_append, hlen]
    rw [hsplit, List.drop_drop]
    have harith : a.length - n + (n + b.length - n) = a.length + b.length - n := by omega
    rw [harith]

theorem commitAll_foldl (ps : List (Turn × Turn)) : ∀ l : List (Turn × Turn),
    l.length ≤ 5 →
    ps.foldl (fun h p => updateConversationHistory h p.1 p.2) (pairsFlat l) =
      pairsFlat (lastN 5 (l ++ ps)) := by
  induction ps with
  | nil =>
    intro l hl
    simp [lastN_of_le hl]
  | cons p ps ih =>
    intro l hl
    rw [List.foldl_cons, commit_step l hl p.1 p.2]
    have hlen : (lastN 5 (l ++ [p])).length ≤ 5 := by
      rw [length_lastN]; omega
    rw [ih (lastN 5 (l ++ [p])) hlen]
    have hp : p = (p.1, p.2) := rfl
    rw [lastN_lastN_append, List.append_assoc]
    simp

/-- C2: committing any sequence of exchange pairs from the empty history
stores exactly the last (at most) 5 pairs flattened in order — so the
length never exceeds 10, is always even, turns stay in user-then-assistant
pairs, the oldest pair is evicted first, and 6 sequential commits leave
exactly the last 5 pairs. -/
theorem commitAll_bound (ps : List (Turn × Turn)) :
    commitAll ps = pairsFlat (lastN 5 ps) ∧
      (commitAll ps).length = 2 * min 5 ps.length ∧
      (commitAll ps).length ≤ 10 ∧
      (commitAll ps).length % 2 = 0 ∧
      (ps.length = 6 → commitAll ps = pairsFlat (ps.drop 1)) := by
  have heq : commitAll ps = pairsFlat (lastN 5 ps) := by
    have := commitAll_foldl ps [] (by simp)
    simpa [commitAll, pairsFlat] using this
  have hlen : (commitAll ps).length = 2 * min 5 ps.length := by
    rw [heq, length_pairsFlat, length_lastN]
  refine ⟨heq, hlen, by omega, by omega, ?_⟩
  intro h6
  rw [heq]
  unfold lastN
  rw [h6]

/-- C2 witness: six concrete pairs committed sequentially leave exactly the
flattened last five. -/
theorem commitAll_bound_witness :
    (pairsC2 6).length = 6 ∧ commitAll (pairsC2 6) = pairsFlat ((pairsC2 6).drop 1) :=
  ⟨by decide, (commitAll_bound (pairsC2 6)).2.2.2.2 (by decide)⟩

/-! ### Lemmas about the per-entry loop body -/

theorem processMessage_seen_skip (botUsername : Str)
    (oracle : List Turn → CompletionOutcome) (st : BotState) (m : Message) (id : Str)
    (hid : m.idAttr = some id) (hseen : st.seenMessages.contains id = true) :
    processMessage botUsername oracle st m = some (st, [], []) := by
  unfold processMessage
  rw [hid]
  by_cases hnil : id = []
  · simp [hnil]
  · have hmem : id ∈ st.seenMessages := List.elem_iff.mp hseen
    simp [hnil, hmem]

theorem processMessage_seen_mono (botUsername : Str)
    (oracle : List Turn → CompletionOutcome) (st : BotState) (m : Message)
    (r : BotState × List (List Turn) × List Str)
    (h : processMessage botUsername oracle st m = some r) :
    ∀ x ∈ st.seenMessages, x ∈ r.1.seenMessages := by
  intro x hx
  unfold processMessage at h
  repeat' split at h
  all_goals first
    | exact Option.noConfusion h
    | (injection h with h; subst h; exact hx)
    | (injection h with h; subst h; exact List.mem_cons_of_mem _ hx)

theorem processMessage_addressed (botUsername : Str)
    (oracle : List Turn → CompletionOutcome) (st : BotState) (m : Message)
    (id utxt ctext : Str) (mels : List (Option Str)) (isReply : Bool)
    (hid : m.idAttr = some id) (hnil : id ≠ [])
    (hseen : st.seenMessages.contains id = false)
    (huser : m.usernameEl = .qsome (some utxt))
    (hbot : equalFold (trimPrefixS atS (trimSpace utxt)) botUsername = false)
    (hreply : isReplyToBot botUsername m = some isReply)
    (hmels : m.mentionEls = some mels)
    (htrig : (checkMentioned botUsername mels || isReply) = true)
    (hcontent : m.contentEl = .qsome (some ctext)) :
    processMessage botUsername oracle st m =
      match askChatGPT oracle st.conversationHistory
          (trimSpace (stripMentions mels (trimSpace ctext))) with
      | ⟨.crash, _, _⟩ => none
      | ⟨.err, h2, sent⟩ => some (⟨(markSeen st id).seenMessages, h2⟩, [sent], [])
      | ⟨.okReply reply, h2, sent⟩ =>
        some (⟨(markSeen st id).seenMessages, h2⟩, [sent], [reply]) := by
  simp only [processMessage, hid, hnil, hseen, huser, hbot, hreply, hmels, htrig,
    hcontent, Bool.false_eq_true, if_false, if_true]

theorem processMessage_attrFails (botUsername : Str)
    (oracle : List Turn → CompletionOutcome) (st : BotState) (m : Message) (id : Str)
    (hid : m.idAttr = some id) (hnil : id ≠ [])
    (hseen : st.seenMessages.contains id = false) (hfail : attrFails m) :
    processMessage botUsername oracle st m = some (markSeen st id, [], []) := by
  simp only [processMessage, hid, hnil, hseen, Bool.false_eq_true, if_false]
  cases huser : m.usernameEl with
  | qerr => rfl
  | qnone => rfl
  | qsome ou =>
    cases ou with
    | none => rfl
    | some utxt =>
      by_cases hbot : equalFold (trimPrefixS atS (trimSpace utxt)) botUsername = true
      · simp [hbot]
      · simp only [hbot, Bool.false_eq_true, if_false]
        cases hreply : isReplyToBot botUsername m with
        | none => rfl
        | some isReply =>
          cases hmels : m.mentionEls with
          | none => rfl
          | some mels =>
            by_cases htrig : (checkMentioned botUsername mels || isReply) = true
            · simp only [htrig, if_true]
              cases hcontent : m.contentEl with
              | qerr => rfl
              | qnone => rfl
              | qsome oc =>
                cases oc with
                | none => rfl
                | some ctext =>
                  exact absurd hfail (by simp [attrFails, huser, hmels, hcontent])
            · simp [htrig]

/-! ### Claim theorems over the loop body -/

/-- C4: an entry whose author name — trimmed, `@`-stripped —
case-insensitively equals the bot identity is skipped right after being
marked seen: no completion call and no injection, whatever its mentions or
reply-target content (lines 220-224). -/
theorem self_authored_not_addressed (botUsername : Str)
    (oracle : List Turn → CompletionOutcome) (st : BotState) (m : Message)
    (id utxt : Str)
    (hid : m.idAttr = some id) (hnil : id ≠ [])
    (hseen : st.seenMessages.contains id = false)
    (huser : m.usernameEl = .qsome (some utxt))
    (hbot : equalFold (trimPrefixS atS (trimSpace utxt)) botUsername = true) :
    processMessage botUsername oracle st m = some (markSeen st id, [], []) := by
  simp only [processMessage, hid, hnil, hseen, huser, hbot,
    Bool.false_eq_true, if_false, if_true]

/-- C4 witness: a bot-authored entry with matching mentions and a reply
context referencing the bot is still not answered. -/
theorem self_authored_not_addressed_witness :
    processMessage botName (oracleOfReply strOk) ⟨[], []⟩ mSelf =
      some (markSeen ⟨[], []⟩ idM1, [], []) :=
  self_authored_not_addressed botName (oracleOfReply strOk) ⟨[], []⟩ mSelf idM1
    atBotName rfl (by decide) rfl rfl (by decide)

theorem checkMentioned_exists (botUsername : Str) : ∀ mels : List (Option Str),
    checkMentioned botUsername mels = true ↔
      ∃ t, some t ∈ mels ∧ equalFold (trimPrefixS atS (trimSpace t)) botUsername = true
  | [] => by simp [checkMentioned]
  | none :: rest => by
    simp only [checkMentioned]
    rw [checkMentioned_exists botUsername rest]
    constructor
    · rintro ⟨t, ht, he⟩
      exact ⟨t, List.mem_cons_of_mem _ ht, he⟩
    · rintro ⟨t, ht, he⟩
      rcases List.mem_cons.mp ht with h | h
      · exact Option.noConfusion h
      · exact ⟨t, h, he⟩
  | some u :: rest => by
    by_cases he : equalFold (trimPrefixS atS (trimSpace u)) botUsername = true
    · simp only [checkMentioned, he, if_true, true_iff]
      exact ⟨u, List.mem_cons_self _ _, he⟩
    · simp only [checkMentioned, he, Bool.false_eq_true, if_false]
      rw [checkMentioned_exists botUsername rest]
      constructor
      · rintro ⟨t, ht, hte⟩
        exact ⟨t, List.mem_cons_of_mem _ ht, hte⟩
      · rintro ⟨t, ht, hte⟩
        rcases List.mem_cons.mp ht with h | h
        · cases Option.some.inj h
          exact absurd hte he
        · exact ⟨t, h, hte⟩

/-- C5: the mention check of the loop (lines 238-250) matches exactly when
a mention text, trimmed and `@`-stripped, case-insensitively equals the bot
identity — for a single text it computes that very comparison, on a list it
holds iff some read text matches, and the texts `@Foo`, `foo`, `FOO` all
match the identity `Foo`. -/
theorem mention_check_characterization :
    (∀ botUsername t : Str,
        checkMentioned botUsername [some t] =
          equalFold (trimPrefixS atS (trimSpace t)) botUsername) ∧
      (∀ (botUsername : Str) (mels : List (Option Str)),
        checkMentioned botUsername mels = true ↔
          ∃ t, some t ∈ mels ∧
            equalFold (trimPrefixS atS (trimSpace t)) botUsername = true) ∧
      (checkMentioned fooName [some atFooName] = true ∧
        checkMentioned fooName [some fooLower] = true ∧
        checkMentioned fooName [some fooUpper] = true) := by
  refine ⟨?_, fun b mels => checkMentioned_exists b mels, by decide, by decide, by decide⟩
  intro botUsername t
  by_cases he : equalFold (trimPrefixS atS (trimSpace t)) botUsername = true
  · simp [checkMentioned, he]
  · simp [checkMentioned, he, Bool.not_eq_true _ ▸ he]

/-- C7: an entry whose id is already in the seen store is skipped without
classification, completion call or injection, whatever its other content;
and any processed entry only ever grows the seen store. -/
theorem seen_dedup (botUsername : Str) (oracle : List Turn → CompletionOutcome)
    (st : BotState) (m : Message) (id : Str)
    (hid : m.idAttr = some id) (hseen : st.seenMessages.contains id = true) :
    processMessage botUsername oracle st m = some (st, [], []) ∧
      ∀ (m' : Message) (r : BotState × List (List Turn) × List Str),
        processMessage botUsername oracle st m' = some r →
          ∀ x ∈ st.seenMessages, x ∈ r.1.seenMessages :=
  ⟨processMessage_seen_skip botUsername oracle st m id hid hseen,
    fun m' r h => processMessage_seen_mono botUsername oracle st m' r h⟩

/-- C7 witness: the mention-trigger entry is ignored once its id is
seen. -/
theorem seen_dedup_witness :
    processMessage botName (oracleOfReply strOk) ⟨[idM1], []⟩ mEntryM1 =
      some (⟨[idM1], []⟩, [], []) :=
  (seen_dedup botName (oracleOfReply strOk) ⟨[idM1], []⟩ mEntryM1 idM1 rfl
    (by decide)).1

/-- C9: the id is recorded in the seen store before any attribute read, so
an entry whose username, mention or content extraction fails is consumed —
marked seen, no call, no injection — and an entry with that id is never
processed again by any later state containing it. -/
theorem id_marked_before_reads (botUsername : Str)
    (oracle : List Turn → CompletionOutcome) (st : BotState) (m : Message) (id : Str)
    (hid : m.idAttr = some id) (hnil : id ≠ [])
    (hseen : st.seenMessages.contains id = false) (hfail : attrFails m) :
    processMessage botUsername oracle st m = some (markSeen st id, [], []) ∧
      id ∈ (markSeen st id).seenMessages ∧
      ∀ (bot' : Str) (oracle' : List Turn → CompletionOutcome) (st' : BotState)
        (m' : Message), st'.seenMessages.contains id = true → m'.idAttr = some id →
          processMessage bot' oracle' st' m' = some (st', [], []) :=
  ⟨processMessage_attrFails botUsername oracle st m id hid hnil hseen hfail,
    List.mem_cons_self id st.seenMessages,
    fun bot' oracle' st' m' hc hi =>
      processMessage_seen_skip bot' oracle' st' m' id hi hc⟩

/-- C9 witness: an entry whose username element query errors is consumed
without an answer. -/
theorem id_marked_before_reads_witness :
    processMessage botName (oracleOfReply strOk) ⟨[], []⟩ mBrokenUser =
      some (markSeen ⟨[], []⟩ idM1, [], []) :=
  (id_marked_before_reads botName (oracleOfReply strOk) ⟨[], []⟩ mBrokenUser idM1
    rfl (by decide) rfl (Or.inl rfl)).1

/-- C10: the reply-target check (line 226) runs before the mention check,
and an error from it skips the entry — marked seen, no call, no injection —
even when the entry's mentions match the bot identity; the id is never
reconsidered afterwards. -/
theorem reply_check_error_skips (botUsername : Str)
    (oracle : List Turn → CompletionOutcome) (st : BotState) (m : Message)
    (id utxt : Str) (mels : List (Option Str))
    (hid : m.idAttr = some id) (hnil : id ≠ [])
    (hseen : st.seenMessages.contains id = false)
    (huser : m.usernameEl = .qsome (some utxt))
    (hbot : equalFold (trimPrefixS atS (trimSpace utxt)) botUsername = false)
    (hreply : isReplyToBot botUsername m = none)
    (_hmels : m.mentionEls = some mels)
    (_hmatch : checkMentioned botUsername mels = true) :
    processMessage botUsername oracle st m = some (markSeen st id, [], []) ∧
      ∀ (oracle' : List Turn → CompletionOutcome) (st' : BotState) (m' : Message),
        st'.seenMessages.contains id = true → m'.idAttr = some id →
          processMessage botUsername oracle' st' m' = some (st', [], []) := by
  constructor
  · simp only [processMessage, hid, hnil, hseen, huser, hbot, hreply,
      Bool.false_eq_true, if_false]
  · exact fun oracle' st' m' hc hi =>
      processMessage_seen_skip botUsername oracle' st' m' id hi hc

/-- C10 witness: an errored reply-context query suppresses the answer even
though the mention matches. -/
theorem reply_check_error_skips_witness :
    processMessage botName (oracleOfReply strOk) ⟨[], []⟩ mReplyErr =
      some (markSeen ⟨[], []⟩ idM1, [], []) :=
  (reply_check_error_skips botName (oracleOfReply strOk) ⟨[], []⟩ mReplyErr idM1
    aliceName [some botName] rfl (by decide) rfl rfl (by decide) rfl rfl
    (by decide)).1

theorem initializeSeenMessages_cons (st : BotState) (m : Message) (ms : List Message) :
    initializeSeenMessages st (m :: ms) = initializeSeenMessages (initStep st m) ms := rfl

theorem initStep_seen (st : BotState) (m : Message) :
    (initStep st m).seenMessages = st.seenMessages ∨
      ∃ id0, m.idAttr = some id0 ∧ id0 ≠ [] ∧
        (initStep st m).seenMessages = id0 :: st.seenMessages := by
  unfold initStep
  cases hm : m.idAttr with
  | none => exact Or.inl rfl
  | some id0 =>
    by_cases hnil : id0 = []
    · simp [hnil]
    · exact Or.inr ⟨id0, rfl, hnil, by simp [hnil]⟩

theorem initStep_hist (st : BotState) (m : Message) :
    (initStep st m).conversationHistory = st.conversationHistory := by
  unfold initStep
  cases m.idAttr with
  | none => rfl
  | some id0 =>
    by_cases hnil : id0 = [] <;> simp [hnil]

theorem initSeen_history : ∀ (msgs : List Message) (st : BotState),
    (initializeSeenMessages st msgs).conversationHistory = st.conversationHistory
  | [], st => rfl
  | m :: ms, st => by
    rw [initializeSeenMessages_cons, initSeen_history ms (initStep st m),
      initStep_hist]

theorem initSeen_contains : ∀ (msgs : List Message) (st : BotState) (id : Str),
    (initializeSeenMessages st msgs).seenMessages.contains id = true ↔
      (st.seenMessages.contains id = true ∨ ∃ m ∈ msgs, m.idAttr = some id ∧ id ≠ [])
  | [], st, id => by simp [initializeSeenMessages]
  | m :: ms, st, id => by
    rw [initializeSeenMessages_cons, initSeen_contains ms (initStep st m) id]
    have hstep : (initStep st m).seenMessages.contains id = true ↔
        (st.seenMessages.contains id = true ∨ (m.idAttr = some id ∧ id ≠ [])) := by
      rcases initStep_seen st m with h | ⟨id0, hm, hnil, h⟩
      · rw [h]
        constructor
        · exact Or.inl
        · rintro (hh | ⟨hh, hne⟩)
          · exact hh
          · -- a non-empty, successfully read id is always recorded, so the
            -- store-unchanged case is impossible here
            have hrec : initStep st m =
                (⟨id :: st.seenMessages, st.conversationHistory⟩ : BotState) := by
              unfold initStep
              simp [hh, hne]
            rw [hrec] at h
            have hlen := congrArg List.length h
            simp at hlen
      · rw [h, List.contains_cons]
        constructor
        · intro hh
          rcases Bool.or_eq_true_iff.mp hh with hh' | hh'
          · have : id = id0 := beq_iff_eq.mp hh'
            subst this
            exact Or.inr ⟨hm, hnil⟩
          · exact Or.inl hh'
        · rintro (hh | ⟨hh, hne⟩)
          · exact Bool.or_eq_true_iff.mpr (Or.inr hh)
          · have hid : id0 = id := by
              rw [hm] at hh
              exact Option.some.inj hh
            subst hid
            exact Bool.or_eq_true_iff.mpr (Or.inl (beq_iff_eq.mpr rfl))
    rw [hstep]
    constructor
    · rintro ((hh | hh) | ⟨m', hm', h'⟩)
      · exact Or.inl hh
      · exact Or.inr ⟨m, List.mem_cons_self _ _, hh⟩
      · exact Or.inr ⟨m', List.mem_cons_of_mem _ hm', h'⟩
    · rintro (hh | ⟨m', hm', h'⟩)
      · exact Or.inl (Or.inl hh)
      · rcases List.mem_cons.mp hm' with heq | hmem
        · subst heq
          exact Or.inl (Or.inr h')
        · exact Or.inr ⟨m', hmem, h'⟩

/-- C8: the initialization pass seeds the seen store with exactly the
non-empty, successfully read ids of the visible entries, classifies none of
them and leaves the history untouched; for the concrete three-entry feed
all three ids are seen afterwards and a subsequent tick over the same feed
issues zero completion calls and zero injections. -/
theorem init_pass_seeds_without_classifying :
    (∀ (st : BotState) (msgs : List Message),
        (initializeSeenMessages st msgs).conversationHistory = st.conversationHistory) ∧
      (∀ (st : BotState) (msgs : List Message) (id : Str),
        (initializeSeenMessages st msgs).seenMessages.contains id = true ↔
          (st.seenMessages.contains id = true ∨ ∃ m ∈ msgs, m.idAttr = some id ∧ id ≠ [])) ∧
      ((initializeSeenMessages ⟨[], []⟩ feed3).seenMessages.contains idA = true ∧
        (initializeSeenMessages ⟨[], []⟩ feed3).seenMessages.contains idB = true ∧
        (initializeSeenMessages ⟨[], []⟩ feed3).seenMessages.contains idC = true ∧
        processTick botName (oracleOfReply strOk)
            (initializeSeenMessages ⟨[], []⟩ feed3) feed3 =
          some (initializeSeenMessages ⟨[], []⟩ feed3, [], [])) :=
  ⟨fun st msgs => initSeen_history msgs st,
    fun st msgs id => initSeen_contains msgs st id,
    by decide, by decide, by decide, by decide⟩

/-- C3 counterexample: for the scenario entry `{id: m1, mentions: [Bot],
content: @Bot hello.}` with bot identity `Bot` and a succeeding completion
call, it is false that the single call's final user turn carries content
`hello` — the code strips only the literal mention text `Bot` and converts
the trailing period to a line break, so the turn carries `@ hello\n`. -/
theorem mention_trigger_counterexample :
    ¬ ((processMessage botName (oracleOfReply strOk) ⟨[], []⟩ mEntryM1).map
        (fun r => (r.2.1.map List.getLast?, r.2.2.length)) =
      some ([some ⟨roleUser, strHello⟩], 1)) := by decide

/-- C3 (amended): the scenario entry yields exactly one completion call,
whose final user turn carries `@ hello\n` (the literal mention text `Bot`
removed, whitespace trimmed, comma/period style conversion applied), and on
a successful completion exactly one response is injected. -/
theorem mention_trigger_amended (oracle : List Turn → CompletionOutcome) (raw : Str)
    (hor : oracle sentM1 = .httpResp true (some (goodChoices raw))) :
    processMessage botName oracle ⟨[], []⟩ mEntryM1 =
      some (⟨[idM1],
          updateConversationHistory [] ⟨roleUser, strAtHelloNl⟩
            ⟨roleAssistant, normalizeReply raw⟩⟩,
        [sentM1], [normalizeReply raw]) ∧
      sentM1.getLast? = some ⟨roleUser, strAtHelloNl⟩ := by
  constructor
  · rw [processMessage_addressed botName oracle ⟨[], []⟩ mEntryM1 idM1 aliceName
      contentM1 [some botName] false rfl (by decide) rfl rfl (by decide) rfl rfl
      (by decide) rfl]
    have hclean : trimSpace (stripMentions [some botName] (trimSpace contentM1)) =
        strAtHelloDot := by decide
    rw [hclean]
    have hask : askChatGPT oracle
        (⟨[], []⟩ : BotState).conversationHistory strAtHelloDot =
        ⟨.okReply (normalizeReply raw),
          updateConversationHistory [] ⟨roleUser, strAtHelloNl⟩
            ⟨roleAssistant, normalizeReply raw⟩,
          sentM1⟩ := by
      have hmsg : convertPunct strAtHelloDot = strAtHelloNl := by decide
      have hsent : buildMessages [] strAtHelloNl = sentM1 := rfl
      show askChatGPT oracle [] strAtHelloDot = _
      simp only [askChatGPT, hmsg, hsent, hor]
      have hext : extractContent (goodChoices raw) = .okReply raw := rfl
      simp only [hext]
    rw [hask]
    rfl
  · decide

/-- C3 amended witness: the concrete always-successful oracle replying
`ok` issues the one call and injects the one normalized response. -/
theorem mention_trigger_amended_witness :
    processMessage botName (oracleOfReply strOk) ⟨[], []⟩ mEntryM1 =
      some (⟨[idM1],
          updateConversationHistory [] ⟨roleUser, strAtHelloNl⟩
            ⟨roleAssistant, normalizeReply strOk⟩⟩,
        [sentM1], [normalizeReply strOk]) ∧
      sentM1.getLast? = some ⟨roleUser, strAtHelloNl⟩ :=
  mention_trigger_amended (oracleOfReply strOk) strOk rfl

set_option maxRecDepth 20000 in
/-- C6: a status-200 response whose `choices[0]` is a JSON number — a body
lacking `choices[0].message.content` — makes the loop body crash (the
unchecked Go type assertion on line 411 panics) instead of returning an
error; every genuinely handled failure (transport error, unreadable body,
non-OK status, malformed JSON, missing `choices`) returns an error, leaves
the history unchanged, records the one attempted call and injects
nothing. -/
theorem completion_failure_behavior :
    processMessage botName oracleNonObjectChoice ⟨[], []⟩ mEntryM1 = none ∧
      askChatGPT oracleTransportErr [] strAtHelloDot = ⟨.err, [], sentM1⟩ ∧
      askChatGPT (fun _ => .readErr) [] strAtHelloDot = ⟨.err, [], sentM1⟩ ∧
      askChatGPT (fun _ => .httpResp false (some (goodChoices strOk))) []
          strAtHelloDot = ⟨.err, [], sentM1⟩ ∧
      askChatGPT (fun _ => .httpResp true none) [] strAtHelloDot =
        ⟨.err, [], sentM1⟩ ∧
      askChatGPT (fun _ => .httpResp true (some [])) [] strAtHelloDot =
        ⟨.err, [], sentM1⟩ ∧
      processMessage botName oracleTransportErr ⟨[], []⟩ mEntryM1 =
        some (⟨[idM1], []⟩, [sentM1], []) := by
  refine ⟨by decide, by decide, by decide, by decide, by decide, by decide, by decide⟩

end ChatBot
